import Mathlib

/-!
Verification of the Redis Streams table-engine core of this repository
(`src/Storages/RedisStreams/*`): the read engine (poll / claim / ack state
machine of `ReadBufferFromRedisStreams`) and the write engine
(`WriteBufferToRedisStreams`).

The header `ReadBufferFromRedisStreams.h` is in the repository's files and its
inline members (`hasMorePolledMessages`, `isStalled`, the in-class initializer
of `stalled_status`, the `Message` struct, the `StalledStatus` enum, the
configuration fields) are embedded from it directly.  The bodies of `poll`,
`ack`, `nextImpl`, `convertStreamsOutputToMessages`, `countRow`,
`convertRawPayloadToItems` live in `.cpp` files that are not among the staged
sources; those operations are modelled from the specification, as their doc
comments record.
-/

namespace RedisStreams

/-- Stalled status of the read buffer, embedded from the header's
`enum StalledStatus` in `ReadBufferFromRedisStreams.h`. -/
inductive StalledStatus where
  | NOT_STALLED
  | NO_MESSAGES_RETURNED
deriving DecidableEq, Repr

/-- Client-side projection of a broker entry, embedded from the header's
`struct Message` (fields `stream`, `key`, `timestamp`, `sequence_number`,
`attrs`). -/
structure Message where
  stream : String
  key : String
  timestamp : Nat
  sequence_number : Nat
  attrs : String
deriving DecidableEq, Repr

/-- Raw broker entry of one poll reply: the header's
`Item = std::pair<std::string, sw::redis::Optional<Attrs>>` with
`Attrs = std::vector<std::pair<std::string, std::string>>`; an entry id and
its ordered field/value pairs. -/
structure Item where
  id : String
  attrs : List (String × String)
deriving DecidableEq, Repr

/-- Broker-reported pending-entry metadata, from the header's
`PendingItem = std::tuple<std::string, std::string, long long, long long>`
(entry id, owning consumer, idle time in milliseconds, delivery count),
together with the entry content a successful claim fetches. Idle time is
kept as a `Nat`: the broker reports a non-negative elapsed time. -/
structure PendingItem where
  id : String
  consumer : String
  idle_time_ms : Nat
  delivery_count : Nat
  attrs : List (String × String)
deriving DecidableEq, Repr

/-- Modelled from the spec: an EntryId is "a strictly increasing pair
`(timestamp_ms, sequence)`" which the broker encodes as `<ts>-<seq>`; the
missing body of `convertStreamsOutputToMessages` parses it into the
`timestamp` and `sequence_number` fields of a `Message`. -/
def parseStreamId (s : String) : Nat × Nat :=
  match s.splitOn "-" with
  | [ts, seq] => (ts.toNat?.getD 0, seq.toNat?.getD 0)
  | _ => (0, 0)

/-- Modelled from the spec: the Message payload is "the flattened field-value
content re-encoded as a single string"; the exact encoding lives in the
missing source body, so a concrete flattening is fixed here. -/
def flattenAttrs (attrs : List (String × String)) : String :=
  String.intercalate "," (attrs.map (fun kv => kv.1 ++ ":" ++ kv.2))

/-- Modelled from the spec: the Message a raw broker entry of `stream` becomes
(created "when translating raw broker replies"). -/
def toMessage (stream : String) (item : Item) : Message :=
  { stream := stream
    key := item.id
    timestamp := (parseStreamId item.id).1
    sequence_number := (parseStreamId item.id).2
    attrs := flattenAttrs item.attrs }

/-- Configuration a `ReadBufferFromRedisStreams` instance holds: the
subscribed streams in declaration order and the header's const fields
`batch_size`, `claim_batch_size`, `poll_timeout`,
`min_pending_time_for_claim`. -/
structure ReadConfig where
  streams : List String
  batch_size : Nat
  claim_batch_size : Nat
  poll_timeout : Nat
  min_pending_time_for_claim : Nat

/-- Mutable state of a `ReadBufferFromRedisStreams`: the stalled status, the
current batch with its read cursor (the header's `messages` and `current`
iterator, the cursor kept as an index), the per-stream cursor registry
(`streams_with_ids`) and the delivered-but-unacknowledged entry ids
(`last_read_ids`; the header keeps a map from stream to an id vector, kept
here as the equivalent flat list of (stream, id) pairs in delivery order). -/
structure ReadState where
  stalled_status : StalledStatus
  messages : List Message
  current : Nat
  streams_with_ids : List (String × String)
  last_read_ids : List (String × String)

/-- State of a freshly constructed buffer: the header's in-class initializer
sets `stalled_status = NO_MESSAGES_RETURNED`; the batch and the
delivered-but-unacknowledged set start empty, and each subscribed stream's
cursor starts at the new-entries marker (modelled from the spec's
StreamCursor "last_delivered_id_or_new_marker"). -/
def initialState (cfg : ReadConfig) : ReadState :=
  { stalled_status := .NO_MESSAGES_RETURNED
    messages := []
    current := 0
    streams_with_ids := cfg.streams.map (fun s => (s, ">"))
    last_read_ids := [] }

/-- Embedded from `ReadBufferFromRedisStreams.h` line 41:
`(stalled_status == NOT_STALLED) && (current != messages.end())` — with the
cursor as an index, not yet at the end means index below the length. -/
def hasMorePolledMessages (s : ReadState) : Bool :=
  decide (s.stalled_status = .NOT_STALLED) && decide (s.current < s.messages.length)

/-- Embedded from `ReadBufferFromRedisStreams.h` line 43:
`stalled_status != NOT_STALLED`. -/
def isStalled (s : ReadState) : Bool :=
  decide (s.stalled_status ≠ .NOT_STALLED)

/-- Modelled from the spec (the claim step of `poll` lives in the missing
`ReadBufferFromRedisStreams.cpp`): the Claim Resolver keeps the pending
entries whose idle time is at or above `min_pending_time_for_claim` and
claims at most `claim_batch_size` of them in one poll cycle. -/
def claimEligible (cfg : ReadConfig) (pending : List PendingItem) : List PendingItem :=
  (pending.filter (fun p => cfg.min_pending_time_for_claim ≤ p.idle_time_ms)).take
    cfg.claim_batch_size

/-- Modelled from the spec: the broker data one stream offers in one poll
cycle — its listed pending entries and its freshly read entries, each in
within-stream broker order. -/
structure StreamReply where
  pending : List PendingItem
  fresh : List Item
deriving DecidableEq, Repr

/-- Modelled from the spec: one poll cycle's broker data keyed by stream
name; the order of this association list is the raw broker response order,
which the engine does not consult (it walks its configured streams). -/
abbrev BrokerReply := List (String × StreamReply)

/-- Reply of one stream inside a broker reply: the first entry for the name,
or nothing for a stream the reply does not mention. -/
def lookupReply (reply : BrokerReply) (stream : String) : StreamReply :=
  match reply.find? (fun r => r.1 == stream) with
  | some r => r.2
  | none => { pending := [], fresh := [] }

/-- Modelled from the spec: the per-stream raw output a poll assembles before
conversion — for each configured stream, in configured subscription order,
the entries reclaimed by the Claim Resolver followed by the freshly read
entries. -/
def streamsOutput (cfg : ReadConfig) (reply : BrokerReply) : List (String × List Item) :=
  cfg.streams.map (fun st =>
    let r := lookupReply reply st
    (st, (claimEligible cfg r.pending).map (fun p => ({ id := p.id, attrs := p.attrs } : Item))
      ++ r.fresh))

/-- Modelled from the spec (the body of `convertStreamsOutputToMessages` is in
the missing `ReadBufferFromRedisStreams.cpp`): the raw per-stream output is
flattened, in the order given, into Messages — a flat concatenation with no
cross-stream sort. -/
def convertStreamsOutputToMessages (output : List (String × List Item)) : List Message :=
  output.flatMap (fun p => p.2.map (toMessage p.1))

/-- Modelled from the spec: the batch one poll cycle produces. -/
def pollBatch (cfg : ReadConfig) (reply : BrokerReply) : List Message :=
  convertStreamsOutputToMessages (streamsOutput cfg reply)

/-- Modelled from the spec: after a poll each stream's cursor advances to the
highest entry id seen for it in this poll (fresh entries arrive in increasing
id order, so that is the last one); a stream with no fresh entries keeps its
cursor. -/
def advanceCursors (reply : BrokerReply) (cursors : List (String × String)) :
    List (String × String) :=
  cursors.map (fun c =>
    match (lookupReply reply c.1).fresh.getLast? with
    | some item => (c.1, item.id)
    | none => c)

/-- Modelled from the spec: `poll()` (body in the missing
`ReadBufferFromRedisStreams.cpp`). It assembles the batch from reclaimed and
fresh entries, always installs it and resets the cursor to its start; on an
empty result it sets the stalled status to `NO_MESSAGES_RETURNED` and returns
`false`, otherwise it sets `NOT_STALLED`, advances the stream cursors and
returns `true`. -/
def poll (cfg : ReadConfig) (reply : BrokerReply) (s : ReadState) : Bool × ReadState :=
  let batch := pollBatch cfg reply
  if batch.isEmpty then
    (false, { s with stalled_status := .NO_MESSAGES_RETURNED, messages := batch, current := 0 })
  else
    (true, { s with
      stalled_status := .NOT_STALLED
      messages := batch
      current := 0
      streams_with_ids := advanceCursors reply s.streams_with_ids })

/-- Modelled from the spec: the single-message fetch layered under the batch
(`nextImpl` in the missing source body). While the batch has an unread
message it delivers the message under the cursor, moves the cursor forward by
one, and records the message's (stream, id) as delivered-but-unacknowledged;
at the end of data it returns nothing and changes nothing. -/
def advance (s : ReadState) : Option Message × ReadState :=
  if h : s.stalled_status = .NOT_STALLED ∧ s.current < s.messages.length then
    let m := s.messages.get ⟨s.current, h.2⟩
    (some m, { s with
      current := s.current + 1
      last_read_ids := s.last_read_ids ++ [(m.stream, m.key)] })
  else
    (none, s)

/-- Delivered ids grouped by stream, preserving first-appearance order of
streams and delivery order of ids within a stream: the shape the header's
`last_read_ids` map gives one acknowledgment request per stream. -/
def insertAck (acc : List (String × List String)) (p : String × String) :
    List (String × List String) :=
  match acc with
  | [] => [(p.1, [p.2])]
  | (st, ids) :: rest =>
    if st = p.1 then (st, ids ++ [p.2]) :: rest else (st, ids) :: insertAck rest p

/-- Grouping of a flat delivered list into per-stream acknowledgment
requests. -/
def groupByStream (ids : List (String × String)) : List (String × List String) :=
  ids.foldl insertAck []

/-- Modelled from the spec: `ack()` (body in the missing source file) sends,
per stream that has delivered-but-unacknowledged ids, one acknowledgment
request carrying exactly those ids, and clears the set. The first component
is the sequence of (stream, ids) requests sent to the broker. -/
def ack (s : ReadState) : List (String × List String) × ReadState :=
  (groupByStream s.last_read_ids, { s with last_read_ids := [] })

/-- Operations the host may drive a read engine with: one poll cycle against a
given broker reply, one single-message fetch, one acknowledgment. -/
inductive Op where
  | pollOp (reply : BrokerReply)
  | advanceOp
  | ackOp

/-- Observable event of one operation: the poll outcome, a delivered message,
an end-of-data signal, or the acknowledgment requests sent. -/
inductive Event where
  | polled (success : Bool)
  | delivered (m : Message)
  | endOfData
  | acked (requests : List (String × List String))

/-- One operation applied to the engine state, with its observable event. -/
def step (cfg : ReadConfig) (s : ReadState) : Op → ReadState × Event
  | .pollOp reply =>
    let r := poll cfg reply s
    (r.2, .polled r.1)
  | .advanceOp =>
    match advance s with
    | (some m, s') => (s', .delivered m)
    | (none, s') => (s', .endOfData)
  | .ackOp =>
    let r := ack s
    (r.2, .acked r.1)

/-- A sequence of operations applied in order, with the event log. -/
def run (cfg : ReadConfig) (s : ReadState) : List Op → ReadState × List Event
  | [] => (s, [])
  | op :: ops =>
    let r := step cfg s op
    let rest := run cfg r.1 ops
    (rest.1, r.2 :: rest.2)

/-- Spec-side recount of the delivered-but-unacknowledged set: a delivery adds
its (stream, id) pair, an acknowledgment empties the set, anything else
leaves it. -/
def pendingUpd (acc : List (String × String)) : Event → List (String × String)
  | .delivered m => acc ++ [(m.stream, m.key)]
  | .acked _ => []
  | _ => acc

/-- Pairs delivered since the last acknowledgment (or since the start) of an
event log. -/
def deliveredUnacked (evs : List Event) : List (String × String) :=
  evs.foldl pendingUpd []

/-- Pair-level contents of a list of per-stream acknowledgment requests. -/
def ackedPairs (reqs : List (String × List String)) : List (String × String) :=
  reqs.flatMap (fun r => r.2.map (fun i => (r.1, i)))

/-- Configuration of a `WriteBufferToRedisStreams`: the target stream, the
optional field delimiter, the row threshold (`rows_per_message`, the header's
`max_rows`) and the byte threshold (`chunk_size`), from the header's const
fields in the second staged header file. -/
structure WriteConfig where
  stream : String
  delim : Option Char
  max_rows : Nat
  chunk_size : Nat

/-- Modelled from the spec: write-side state — the active OutgoingChunk as the
rows accumulated since the last seal, and the broker entries already
appended, each kept as the list of rows it was sealed with (the header's
`rows` counter and `chunks`; the bodies are in the missing
`WriteBufferToRedisStreams.cpp`). -/
structure WriteState where
  chunk : List String
  emitted : List (List String)
deriving DecidableEq, Repr

/-- State of a freshly constructed write buffer: nothing accumulated, nothing
appended. -/
def initialWriteState : WriteState := { chunk := [], emitted := [] }

/-- Byte size of the accumulated chunk. -/
def chunkBytes (rows : List String) : Nat := (rows.map String.length).sum

/-- Modelled from the spec: `countRow()` (body in the missing
`WriteBufferToRedisStreams.cpp`) — one row's bytes have been appended to the
active chunk; when the accumulated row count reaches `rows_per_message` or
the accumulated byte size reaches `chunk_size`, the chunk is sealed and
emitted as one broker entry. -/
def countRow (cfg : WriteConfig) (row : String) (s : WriteState) : WriteState :=
  let chunk' := s.chunk ++ [row]
  if cfg.max_rows ≤ chunk'.length ∨ cfg.chunk_size ≤ chunkBytes chunk' then
    { chunk := [], emitted := s.emitted ++ [chunk'] }
  else
    { s with chunk := chunk' }

/-- Modelled from the spec: an explicit flush seals and emits the active
chunk; with zero accumulated rows it is a no-op. -/
def flushChunk (s : WriteState) : WriteState :=
  if s.chunk = [] then s else { chunk := [], emitted := s.emitted ++ [s.chunk] }

/-- Rows pushed one after another through `countRow`. -/
def pushRows (cfg : WriteConfig) (rows : List String) (s : WriteState) : WriteState :=
  rows.foldl (fun st row => countRow cfg row st) s

/-- Field name used when no delimiter is configured. Modelled from the spec:
"the entire payload is sent as a single field under a fixed field name"; the
name itself lives in the missing source body, only its fixedness matters. -/
def defaultFieldName : List Char := "message".toList

/-- Splitting of a byte payload on a delimiter character; payloads are
embedded as their character lists so the split is by plain recursion. The
result is never empty and joining it back with the delimiter restores the
payload. -/
def splitOnChar (d : Char) : List Char → List (List Char)
  | [] => [[]]
  | c :: cs =>
    match splitOnChar d cs with
    | [] => [[c]]
    | f :: fs => if c = d then [] :: f :: fs else (c :: f) :: fs

/-- Consecutive elements of a list taken as pairs: the alternating
field/value reading of a split payload. A trailing unpaired element is
dropped (the spec fixes only the alternating even case). -/
def pairUp {α : Type} : List α → List (α × α)
  | k :: v :: rest => (k, v) :: pairUp rest
  | _ => []

/-- Modelled from the spec: `convertRawPayloadToItems` (body in the missing
`WriteBufferToRedisStreams.cpp`) — with a configured delimiter the raw
payload splits on it into alternating field/value pairs; with none the whole
payload becomes a single field under the fixed field name, bytes untouched. -/
def convertRawPayloadToItems (delim : Option Char) (payload : List Char) :
    List (List Char × List Char) :=
  match delim with
  | some d => pairUp (splitOnChar d payload)
  | none => [(defaultFieldName, payload)]

/-- Parts joined with a delimiter character between consecutive parts. -/
def joinWith (d : Char) : List (List Char) → List Char
  | [] => []
  | [x] => x
  | x :: y :: rest => x ++ d :: joinWith d (y :: rest)

/-- Field/value pairs flattened to the alternating list. -/
def pairList {α : Type} : List (α × α) → List α
  | [] => []
  | p :: ps => p.1 :: p.2 :: pairList ps

/-- Payload a producer writes for a list of field/value pairs under a
configured delimiter. -/
def joinPairs (d : Char) (pairs : List (List Char × List Char)) : List Char :=
  joinWith d (pairList pairs)

/-! ## Helper lemmas -/

theorem hasMorePolledMessages_eq_true_iff (s : ReadState) :
    hasMorePolledMessages s = true ↔
      s.stalled_status = .NOT_STALLED ∧ s.current < s.messages.length := by
  simp [hasMorePolledMessages]

theorem poll_fst_eq_false_iff (cfg : ReadConfig) (reply : BrokerReply) (s : ReadState) :
    (poll cfg reply s).1 = false ↔ pollBatch cfg reply = [] := by
  by_cases hb : (pollBatch cfg reply).isEmpty
  · simp [poll, hb, List.isEmpty_iff.mp hb]
  · simp [poll, hb]
    exact fun he => hb (by simp [he])

theorem step_preserves_unstalled (cfg : ReadConfig) (s : ReadState) (op : Op)
    (h : s.stalled_status = .NO_MESSAGES_RETURNED)
    (hev : (step cfg s op).2 ≠ .polled true) :
    (step cfg s op).1.stalled_status = .NO_MESSAGES_RETURNED := by
  cases op with
  | pollOp reply =>
    by_cases hb : (pollBatch cfg reply).isEmpty
    · simp [step, poll, hb]
    · exact absurd (by simp [step, poll, hb]) hev
  | advanceOp =>
    have hg : ¬(s.stalled_status = .NOT_STALLED ∧ s.current < s.messages.length) := by
      rw [h]; rintro ⟨hc, -⟩; cases hc
    simp [step, advance, hg, h]
  | ackOp => simp [step, ack, h]

theorem run_preserves_unstalled (cfg : ReadConfig) (ops : List Op) :
    ∀ s : ReadState, s.stalled_status = .NO_MESSAGES_RETURNED →
      Event.polled true ∉ (run cfg s ops).2 →
      (run cfg s ops).1.stalled_status = .NO_MESSAGES_RETURNED := by
  induction ops with
  | nil => intro s h _; simpa [run] using h
  | cons op ops ih =>
    intro s h hnot
    simp only [run, List.mem_cons, not_or] at hnot ⊢
    exact ih _ (step_preserves_unstalled cfg s op h (fun he => hnot.1 he.symm)) hnot.2

/-! ## Claim theorems -/

/-- C1: `poll()` returns `true` exactly when at least one new Message became
available; when it returns `false` it sets the stalled state to
`NO_MESSAGES_RETURNED`; in every case it installs the freshly assembled Batch
and resets the cursor to its start; on a non-empty result it sets the stalled
state to `NOT_STALLED`. -/
theorem poll_contract (cfg : ReadConfig) (reply : BrokerReply) (s : ReadState) :
    ((poll cfg reply s).1 = true ↔ pollBatch cfg reply ≠ [])
    ∧ ((poll cfg reply s).1 = false →
        (poll cfg reply s).2.stalled_status = .NO_MESSAGES_RETURNED)
    ∧ (poll cfg reply s).2.messages = pollBatch cfg reply
    ∧ (poll cfg reply s).2.current = 0
    ∧ ((poll cfg reply s).1 = true →
        (poll cfg reply s).2.stalled_status = .NOT_STALLED) := by
  by_cases hb : (pollBatch cfg reply).isEmpty
  · simp [poll, hb, List.isEmpty_iff.mp hb]
  · have hne : pollBatch cfg reply ≠ [] := fun he => hb (by simp [he])
    simp [poll, hb, hne]

/-- C2: the Batch a poll produces depends only on what the broker reports for
each configured stream, never on the raw response order, and is the flat
concatenation of per-stream contributions (reclaimed then fresh) in
configured subscription order; in particular with streams `[A, B]` holding
two and one fresh entries the batch is `[A_e1, A_e2, B_e1]` whatever the
entries' ids and whatever order the reply lists the streams in. -/
theorem batch_declaration_order (cfg : ReadConfig) :
    (∀ reply reply' : BrokerReply,
        (∀ st ∈ cfg.streams, lookupReply reply st = lookupReply reply' st) →
        pollBatch cfg reply = pollBatch cfg reply')
    ∧ (∀ (a1 a2 b1 : Item) (reply : BrokerReply),
        cfg.streams = ["A", "B"] →
        lookupReply reply "A" = { pending := [], fresh := [a1, a2] } →
        lookupReply reply "B" = { pending := [], fresh := [b1] } →
        pollBatch cfg reply =
          [toMessage "A" a1, toMessage "A" a2, toMessage "B" b1]) := by
  constructor
  · intro reply reply' hsame
    unfold pollBatch streamsOutput
    congr 1
    exact List.map_congr_left (fun st hst => by rw [hsame st hst])
  · intro a1 a2 b1 reply hstreams hA hB
    simp [pollBatch, streamsOutput, convertStreamsOutputToMessages, hstreams, hA, hB,
      claimEligible]

/-- C3: the Claim Resolver never includes a pending entry whose idle time is
below `min_pending_time_for_claim` in a claim request; it includes every
entry at or above the threshold (whenever the bound allows, which is the
only way to also reclaim at most `claim_batch_size` entries per stream per
poll cycle); and it reclaims at most `claim_batch_size` entries. -/
theorem claim_resolver_eligibility (cfg : ReadConfig) (pending : List PendingItem) :
    (∀ p ∈ claimEligible cfg pending, cfg.min_pending_time_for_claim ≤ p.idle_time_ms)
    ∧ (claimEligible cfg pending).length ≤ cfg.claim_batch_size
    ∧ (∀ p ∈ pending, p.idle_time_ms < cfg.min_pending_time_for_claim →
        p ∉ claimEligible cfg pending)
    ∧ ((pending.filter
          (fun p => cfg.min_pending_time_for_claim ≤ p.idle_time_ms)).length ≤
            cfg.claim_batch_size →
        ∀ p ∈ pending, cfg.min_pending_time_for_claim ≤ p.idle_time_ms →
          p ∈ claimEligible cfg pending) := by
  have hmem : ∀ p ∈ claimEligible cfg pending,
      cfg.min_pending_time_for_claim ≤ p.idle_time_ms := by
    intro p hp
    have hf := List.take_subset _ _ hp
    simpa using (List.mem_filter.mp hf).2
  refine ⟨hmem, ?_, ?_, ?_⟩
  · rw [claimEligible, List.length_take]
    exact min_le_left _ _
  · intro p _ hlt hp
    exact absurd (hmem p hp) (by omega)
  · intro hlen p hp hge
    rw [claimEligible, List.take_of_length_le hlen]
    exact List.mem_filter.mpr ⟨hp, by simpa using hge⟩

/-- C7: `hasMorePolledMessages()` is `true` exactly when the stalled status is
`NOT_STALLED` and the cursor has not reached the end of the current Batch;
consequently, after a `poll()` that found no broker data and returned
`false`, `hasMorePolledMessages()` is `false`. -/
theorem hasMorePolledMessages_spec (cfg : ReadConfig) (reply : BrokerReply) (s : ReadState) :
    (hasMorePolledMessages s = true ↔
        s.stalled_status = .NOT_STALLED ∧ s.current < s.messages.length)
    ∧ ((poll cfg reply s).1 = false →
        hasMorePolledMessages (poll cfg reply s).2 = false) := by
  refine ⟨hasMorePolledMessages_eq_true_iff s, fun hfalse => ?_⟩
  have hst := (poll_contract cfg reply s).2.1 hfalse
  simp [hasMorePolledMessages, hst]

/-- C9: a freshly constructed read buffer starts with stalled status
`NO_MESSAGES_RETURNED`, so `hasMorePolledMessages()` is `false` and
`isStalled()` is `true`; and along any run whose polls all came back empty,
the engine still reports no available messages. -/
theorem initial_state_reports_nothing (cfg : ReadConfig) :
    (initialState cfg).stalled_status = .NO_MESSAGES_RETURNED
    ∧ hasMorePolledMessages (initialState cfg) = false
    ∧ isStalled (initialState cfg) = true
    ∧ ∀ ops : List Op, Event.polled true ∉ (run cfg (initialState cfg) ops).2 →
        hasMorePolledMessages (run cfg (initialState cfg) ops).1 = false := by
  refine ⟨rfl, by simp [hasMorePolledMessages, initialState],
    by simp [isStalled, initialState], fun ops hnone => ?_⟩
  have hst := run_preserves_unstalled cfg ops (initialState cfg) rfl hnone
  simp [hasMorePolledMessages, hst]

/-- C10: in every state, `hasMorePolledMessages()` returning `true` forces
`isStalled()` to return `false`: the engine never simultaneously reports
remaining polled messages and a stalled status. -/
theorem hasMorePolledMessages_imp_not_stalled (s : ReadState)
    (h : hasMorePolledMessages s = true) : isStalled s = false := by
  have hs := (hasMorePolledMessages_eq_true_iff s).mp h
  simp [isStalled, hs.1]

/-- Message and state used to witness the stalled-exclusion theorem at a
concrete input. -/
def sampleMessage : Message :=
  { stream := "A", key := "1-1", timestamp := 1, sequence_number := 1, attrs := "" }

/-- Concrete live state: a one-message batch, cursor at its start. -/
def sampleLiveState : ReadState :=
  { stalled_status := .NOT_STALLED
    messages := [sampleMessage]
    current := 0
    streams_with_ids := []
    last_read_ids := [] }

/-- Witness for C10 at the concrete live state. -/
theorem hasMore_not_stalled_witness : isStalled sampleLiveState = false :=
  hasMorePolledMessages_imp_not_stalled sampleLiveState (by decide)

/-! ## Delivered-but-unacknowledged bookkeeping -/

theorem step_last_read_ids (cfg : ReadConfig) (s : ReadState) (op : Op) :
    (step cfg s op).1.last_read_ids = pendingUpd s.last_read_ids (step cfg s op).2 := by
  cases op with
  | pollOp reply =>
    by_cases hb : (pollBatch cfg reply).isEmpty <;> simp [step, poll, hb, pendingUpd]
  | advanceOp =>
    by_cases hg : s.stalled_status = .NOT_STALLED ∧ s.current < s.messages.length
    · simp [step, advance, hg, pendingUpd]
    · simp [step, advance, hg, pendingUpd]
  | ackOp => simp [step, ack, pendingUpd]

theorem run_last_read_ids (cfg : ReadConfig) (ops : List Op) :
    ∀ s : ReadState,
      (run cfg s ops).1.last_read_ids =
        (run cfg s ops).2.foldl pendingUpd s.last_read_ids := by
  induction ops with
  | nil => intro s; simp [run]
  | cons op ops ih =>
    intro s
    simp only [run, List.foldl_cons]
    rw [ih (step cfg s op).1, step_last_read_ids]

theorem ackedPairs_cons (st : String) (ids : List String)
    (rest : List (String × List String)) :
    ackedPairs ((st, ids) :: rest) =
      ids.map (fun i => (st, i)) ++ ackedPairs rest := by
  simp [ackedPairs]

theorem mem_ackedPairs_insertAck (p q : String × String) :
    ∀ acc : List (String × List String),
      q ∈ ackedPairs (insertAck acc p) ↔ q ∈ ackedPairs acc ∨ q = p := by
  intro acc
  induction acc with
  | nil => simp [insertAck, ackedPairs]
  | cons hd rest ih =>
    obtain ⟨st, ids⟩ := hd
    by_cases hst : st = p.1
    · subst hst
      rw [show insertAck ((p.1, ids) :: rest) p = (p.1, ids ++ [p.2]) :: rest from by
        simp [insertAck]]
      rw [ackedPairs_cons, ackedPairs_cons]
      simp only [List.map_append, List.map_cons, List.map_nil, List.mem_append,
        List.mem_singleton, Prod.mk.eta]
      tauto
    · rw [show insertAck ((st, ids) :: rest) p = (st, ids) :: insertAck rest p from by
        simp [insertAck, hst]]
      rw [ackedPairs_cons, ackedPairs_cons]
      simp only [List.mem_append]
      rw [ih]
      tauto

theorem mem_ackedPairs_foldl_insertAck (l : List (String × String)) :
    ∀ (acc : List (String × List String)) (q : String × String),
      q ∈ ackedPairs (l.foldl insertAck acc) ↔ q ∈ ackedPairs acc ∨ q ∈ l := by
  induction l with
  | nil => simp
  | cons p l ih =>
    intro acc q
    simp only [List.foldl_cons, List.mem_cons]
    rw [ih, mem_ackedPairs_insertAck]
    tauto

theorem mem_ackedPairs_groupByStream (l : List (String × String)) (q : String × String) :
    q ∈ ackedPairs (groupByStream l) ↔ q ∈ l := by
  rw [groupByStream, mem_ackedPairs_foldl_insertAck]
  simp [ackedPairs]

theorem mem_foldl_pendingUpd_of_no_ack (evs : List Event) :
    ∀ acc : List (String × String), (∀ r, Event.acked r ∉ evs) →
      ∀ q ∈ acc, q ∈ evs.foldl pendingUpd acc := by
  induction evs with
  | nil => intro acc _ q hq; simpa using hq
  | cons e evs ih =>
    intro acc hno q hq
    simp only [List.foldl_cons]
    have hno' : ∀ r, Event.acked r ∉ evs := by
      intro r hr
      exact hno r (List.mem_cons_of_mem _ hr)
    refine ih _ hno' q ?_
    cases e with
    | polled b => exact hq
    | delivered m => exact List.mem_append_left _ hq
    | endOfData => exact hq
    | acked r => exact absurd (List.mem_cons_self _ _) (hno r)

/-- C4: along every run of the read engine from construction, the
delivered-but-unacknowledged set holds exactly the (stream, id) pairs
delivered via the single-message fetch since the last `ack()` (or since
creation); an `ack()` at that point acknowledges exactly those pairs across
all involved streams — nothing undelivered — and clears the set; and a pair
delivered with no `ack()` after it is still in the set. -/
theorem advance_ack_exactness (cfg : ReadConfig) (ops : List Op) :
    (run cfg (initialState cfg) ops).1.last_read_ids
        = deliveredUnacked (run cfg (initialState cfg) ops).2
    ∧ (∀ q : String × String,
        q ∈ ackedPairs (ack (run cfg (initialState cfg) ops).1).1 ↔
          q ∈ deliveredUnacked (run cfg (initialState cfg) ops).2)
    ∧ (ack (run cfg (initialState cfg) ops).1).2.last_read_ids = []
    ∧ (∀ (evs₁ evs₂ : List Event) (m : Message),
        (run cfg (initialState cfg) ops).2 = evs₁ ++ Event.delivered m :: evs₂ →
        (∀ r, Event.acked r ∉ evs₂) →
        (m.stream, m.key) ∈ (run cfg (initialState cfg) ops).1.last_read_ids) := by
  have hinv : (run cfg (initialState cfg) ops).1.last_read_ids
      = deliveredUnacked (run cfg (initialState cfg) ops).2 := by
    rw [run_last_read_ids]
    rfl
  refine ⟨hinv, ?_, rfl, ?_⟩
  · intro q
    rw [ack, mem_ackedPairs_groupByStream, hinv]
  · intro evs₁ evs₂ m hsplit hno
    rw [hinv, deliveredUnacked, hsplit, List.foldl_append, List.foldl_cons]
    exact mem_foldl_pendingUpd_of_no_ack evs₂ _ hno _
      (List.mem_append_right _ (List.mem_singleton.mpr rfl))

/-- C8: a second `ack()` immediately after an `ack()`, with nothing newly
delivered between the calls, sends no acknowledgment request to the broker
and leaves the state exactly as the first call left it. -/
theorem ack_idempotent (s : ReadState) :
    (ack (ack s).2).1 = [] ∧ (ack (ack s).2).2 = (ack s).2 := by
  simp [ack, groupByStream]

/-! ## Write-engine lemmas -/

theorem countRow_accumulates (cfg : WriteConfig) (row : String) (s : WriteState)
    (h1 : s.chunk.length + 1 < cfg.max_rows)
    (h2 : chunkBytes (s.chunk ++ [row]) < cfg.chunk_size) :
    countRow cfg row s = { s with chunk := s.chunk ++ [row] } := by
  simp only [countRow]
  rw [if_neg]
  simp only [List.length_append, List.length_singleton]
  omega

theorem countRow_seals (cfg : WriteConfig) (row : String) (s : WriteState)
    (h : cfg.max_rows ≤ s.chunk.length + 1 ∨ cfg.chunk_size ≤ chunkBytes (s.chunk ++ [row])) :
    countRow cfg row s = { chunk := [], emitted := s.emitted ++ [s.chunk ++ [row]] } := by
  simp only [countRow]
  rw [if_pos]
  simp only [List.length_append, List.length_singleton]
  omega

/-- C5: with `rows_per_message = 3`, pushing 7 rows (whose bytes stay below
the byte threshold) seals and appends exactly two 3-row entries; the explicit
flush then appends the final 1-row entry, so exactly 3 entries of 3, 3 and 1
rows are appended, the last only on the flush; and an explicit flush with
zero accumulated rows appends nothing. -/
theorem write_batching (cfg : WriteConfig) (r1 r2 r3 r4 r5 r6 r7 : String)
    (hm : cfg.max_rows = 3)
    (hc : chunkBytes [r1, r2, r3, r4, r5, r6, r7] < cfg.chunk_size) :
    (pushRows cfg [r1, r2, r3, r4, r5, r6, r7] initialWriteState).emitted
        = [[r1, r2, r3], [r4, r5, r6]]
    ∧ (flushChunk (pushRows cfg [r1, r2, r3, r4, r5, r6, r7] initialWriteState)).emitted
        = [[r1, r2, r3], [r4, r5, r6], [r7]]
    ∧ (flushChunk (pushRows cfg [r1, r2, r3, r4, r5, r6, r7] initialWriteState)).emitted.map
          List.length = [3, 3, 1]
    ∧ flushChunk initialWriteState = initialWriteState := by
  have hb : r1.length + (r2.length + (r3.length + (r4.length +
      (r5.length + (r6.length + r7.length))))) < cfg.chunk_size := by
    simpa [chunkBytes] using hc
  have e1 : countRow cfg r1 initialWriteState = ⟨[r1], []⟩ := by
    rw [countRow_accumulates cfg r1 initialWriteState
      (by simp [initialWriteState, hm]) (by simp [initialWriteState, chunkBytes]; omega)]
    rfl
  have e2 : countRow cfg r2 ⟨[r1], []⟩ = ⟨[r1, r2], []⟩ := by
    rw [countRow_accumulates cfg r2 ⟨[r1], []⟩
      (by simp [hm]) (by simp [chunkBytes]; omega)]
    rfl
  have e3 : countRow cfg r3 ⟨[r1, r2], []⟩ = ⟨[], [[r1, r2, r3]]⟩ := by
    rw [countRow_seals cfg r3 ⟨[r1, r2], []⟩ (Or.inl (by simp [hm]))]
    rfl
  have e4 : countRow cfg r4 ⟨[], [[r1, r2, r3]]⟩ = ⟨[r4], [[r1, r2, r3]]⟩ := by
    rw [countRow_accumulates cfg r4 ⟨[], [[r1, r2, r3]]⟩
      (by simp [hm]) (by simp [chunkBytes]; omega)]
    rfl
  have e5 : countRow cfg r5 ⟨[r4], [[r1, r2, r3]]⟩ = ⟨[r4, r5], [[r1, r2, r3]]⟩ := by
    rw [countRow_accumulates cfg r5 ⟨[r4], [[r1, r2, r3]]⟩
      (by simp [hm]) (by simp [chunkBytes]; omega)]
    rfl
  have e6 : countRow cfg r6 ⟨[r4, r5], [[r1, r2, r3]]⟩
      = ⟨[], [[r1, r2, r3], [r4, r5, r6]]⟩ := by
    rw [countRow_seals cfg r6 ⟨[r4, r5], [[r1, r2, r3]]⟩ (Or.inl (by simp [hm]))]
    rfl
  have e7 : countRow cfg r7 ⟨[], [[r1, r2, r3], [r4, r5, r6]]⟩
      = ⟨[r7], [[r1, r2, r3], [r4, r5, r6]]⟩ := by
    rw [countRow_accumulates cfg r7 ⟨[], [[r1, r2, r3], [r4, r5, r6]]⟩
      (by simp [hm]) (by simp [chunkBytes]; omega)]
    rfl
  have epush : pushRows cfg [r1, r2, r3, r4, r5, r6, r7] initialWriteState
      = ⟨[r7], [[r1, r2, r3], [r4, r5, r6]]⟩ := by
    simp only [pushRows, List.foldl_cons, List.foldl_nil]
    rw [e1, e2, e3, e4, e5, e6, e7]
  refine ⟨by rw [epush], ?_, ?_, by simp [flushChunk, initialWriteState]⟩
  · rw [epush]
    simp [flushChunk]
  · rw [epush]
    simp [flushChunk]

/-- Concrete write configuration used by the C5 witness. -/
def sampleWriteConfig : WriteConfig :=
  { stream := "events", delim := none, max_rows := 3, chunk_size := 100 }

/-- Witness for C5: 7 one-byte rows against `rows_per_message = 3`. -/
theorem write_batching_witness :
    (pushRows sampleWriteConfig ["a", "b", "c", "d", "e", "f", "g"]
        initialWriteState).emitted = [["a", "b", "c"], ["d", "e", "f"]]
    ∧ (flushChunk (pushRows sampleWriteConfig ["a", "b", "c", "d", "e", "f", "g"]
        initialWriteState)).emitted = [["a", "b", "c"], ["d", "e", "f"], ["g"]]
    ∧ (flushChunk (pushRows sampleWriteConfig ["a", "b", "c", "d", "e", "f", "g"]
        initialWriteState)).emitted.map List.length = [3, 3, 1]
    ∧ flushChunk initialWriteState = initialWriteState :=
  write_batching sampleWriteConfig "a" "b" "c" "d" "e" "f" "g" rfl (by decide)

/-! ## Payload framing lemmas -/

theorem splitOnChar_ne_nil (d : Char) (cs : List Char) : splitOnChar d cs ≠ [] := by
  induction cs with
  | nil => simp [splitOnChar]
  | cons c cs ih =>
    cases hsplit : splitOnChar d cs with
    | nil => exact absurd hsplit ih
    | cons f fs =>
      simp only [splitOnChar, hsplit]
      split <;> simp

theorem splitOnChar_of_not_mem (d : Char) (x : List Char) (hx : d ∉ x) :
    splitOnChar d x = [x] := by
  induction x with
  | nil => rfl
  | cons c cs ih =>
    have hc : ¬(c = d) := fun h => hx (h ▸ List.mem_cons_self _ _)
    have hcs : d ∉ cs := fun h => hx (List.mem_cons_of_mem _ h)
    simp [splitOnChar, ih hcs, hc]

theorem splitOnChar_append (d : Char) (x t : List Char) (hx : d ∉ x) :
    splitOnChar d (x ++ d :: t) = x :: splitOnChar d t := by
  induction x with
  | nil =>
    cases hsplit : splitOnChar d t with
    | nil => exact absurd hsplit (splitOnChar_ne_nil d t)
    | cons f fs => simp [splitOnChar, hsplit]
  | cons c cs ih =>
    have hc : ¬(c = d) := fun h => hx (h ▸ List.mem_cons_self _ _)
    have hcs : d ∉ cs := fun h => hx (List.mem_cons_of_mem _ h)
    have hstep : splitOnChar d (c :: (cs ++ d :: t)) =
        match splitOnChar d (cs ++ d :: t) with
        | [] => [[c]]
        | f :: fs => if c = d then [] :: f :: fs else (c :: f) :: fs := rfl
    rw [List.cons_append, hstep, ih hcs]
    simp [hc]

theorem splitOnChar_joinWith (d : Char) :
    ∀ parts : List (List Char), parts ≠ [] → (∀ x ∈ parts, d ∉ x) →
      splitOnChar d (joinWith d parts) = parts := by
  intro parts
  induction parts with
  | nil => intro h _; exact absurd rfl h
  | cons x xs ih =>
    intro _ hfree
    cases xs with
    | nil => simpa [joinWith] using splitOnChar_of_not_mem d x (hfree x (by simp))
    | cons y ys =>
      rw [show joinWith d (x :: y :: ys) = x ++ d :: joinWith d (y :: ys) from rfl]
      rw [splitOnChar_append d x _ (hfree x (by simp))]
      rw [ih (by simp) (fun z hz => hfree z (List.mem_cons_of_mem _ hz))]

theorem pairUp_pairList {α : Type} : ∀ ps : List (α × α), pairUp (pairList ps) = ps := by
  intro ps
  induction ps with
  | nil => rfl
  | cons p ps ih => simp [pairList, pairUp, ih]

theorem pairList_ne_nil {α : Type} (ps : List (α × α)) (h : ps ≠ []) :
    pairList ps ≠ [] := by
  cases ps with
  | nil => exact absurd rfl h
  | cons p ps => simp [pairList]

theorem pairList_free (d : Char) :
    ∀ ps : List (List Char × List Char), (∀ p ∈ ps, d ∉ p.1 ∧ d ∉ p.2) →
      ∀ x ∈ pairList ps, d ∉ x := by
  intro ps
  induction ps with
  | nil => intro _ x hx; simp [pairList] at hx
  | cons p ps ih =>
    intro hfree x hx
    rw [show pairList (p :: ps) = p.1 :: p.2 :: pairList ps from rfl] at hx
    rcases List.mem_cons.mp hx with h1 | hx'
    · exact h1 ▸ (hfree p (by simp)).1
    · rcases List.mem_cons.mp hx' with h2 | h3
      · exact h2 ▸ (hfree p (by simp)).2
      · exact ih (fun q hq => hfree q (List.mem_cons_of_mem _ hq)) x h3

/-- C6: a payload assembled from field/value pairs under a configured
delimiter splits back, on emit, into exactly those alternating field/value
pairs (whenever the fields and values are delimiter-free, as the claim's
`"k1,v1,k2,v2"` example is); with no delimiter configured the whole payload
becomes one field under the fixed field name, its bytes untouched. -/
theorem payload_framing (d : Char) (pairs : List (List Char × List Char))
    (hne : pairs ≠ [])
    (hfree : ∀ p ∈ pairs, d ∉ p.1 ∧ d ∉ p.2) :
    convertRawPayloadToItems (some d) (joinPairs d pairs) = pairs
    ∧ ∀ payload : List Char,
        convertRawPayloadToItems none payload = [(defaultFieldName, payload)] := by
  refine ⟨?_, fun payload => rfl⟩
  show pairUp (splitOnChar d (joinWith d (pairList pairs))) = pairs
  rw [splitOnChar_joinWith d (pairList pairs) (pairList_ne_nil pairs hne)
    (pairList_free d pairs hfree)]
  exact pairUp_pairList pairs

/-- Witness for C6 at the claim's own example: delimiter `,` and payload
`k1,v1,k2,v2` yield the two-field entry. -/
theorem payload_framing_witness :
    convertRawPayloadToItems (some ',') "k1,v1,k2,v2".toList =
      [("k1".toList, "v1".toList), ("k2".toList, "v2".toList)] := by
  have h := (payload_framing ',' [("k1".toList, "v1".toList), ("k2".toList, "v2".toList)]
    (by decide) (by decide)).1
  have e : joinPairs ',' [("k1".toList, "v1".toList), ("k2".toList, "v2".toList)]
      = "k1,v1,k2,v2".toList := by decide
  rw [e] at h
  exact h

end RedisStreams
